import Mathlib

set_option maxRecDepth 8000

/-!
Shallow embedding of the ar065/c-midiplayer MIDI engine (src/midiplayer.c,
src/midiplayer.h, src/main.c) and theorems about its decoding, scheduling
and queueing behaviour.

Conventions of the embedding:
* C byte buffers (`uint8_t*`) are `List Nat`; a byte read `data[i]` is
  `data.getD i 0 % 256` (`% 256` reflects the `uint8_t` type of the value
  read; an out-of-range index yields the default 0, and out-of-range
  accesses are reported through an explicit flag where a statement is
  about them).
* `size_t` / `uint64_t` / non-negative `int` quantities are `Nat`.  Where
  the C arithmetic cannot overflow on the inputs a theorem speaks about,
  no `% 2^w` truncation is inserted; this is noted at the definitions
  concerned.
* `double` is modelled by `ℚ` (exact arithmetic).
* Loops that the C code does not obviously exit are modelled with explicit
  fuel, returning `Option` (`none` = the loop was still running after
  `fuel` iterations).
-/

namespace MidiPlayer

/-- `TrackData` from src/midiplayer.c lines 22-32.  The `data` pointer is
modelled by the list `data` plus the flag `dataActive` (`false` models
`data == NULL` after `free`). -/
structure TrackData where
  data : List Nat
  dataActive : Bool
  tick : Nat
  offset : Nat
  length : Nat
  message : Nat
  temp : Nat
  long_msg : List Nat
  long_msg_len : Nat
  long_msg_capacity : Nat
  data_capacity : Nat
deriving DecidableEq

/-- A `uint8_t` read `track->data[i]`. -/
def byteAt (t : TrackData) (i : Nat) : Nat := t.data.getD i 0 % 256

/-- The do-while loop of `decode_variable_length` (midiplayer.c:65-68).
`result = (result << 7) | (byte & 0x7F)` is written `result * 128 + byte % 128`,
which is bit-for-bit the same because the shifted value has its low 7 bits
clear.  The loop bound `track->offset < track->length` is carried as the
remaining distance `gas = length - offset`, which decreases by one per
iteration (so the loop guard `offset + 1 < length` is `0 < gas`); the
`gas = 0` branch is unreachable from `decode_variable_length`, which only
enters the loop with `offset < length`.  `result` is a C `int`; on the
at-most-4-byte encodings the theorems below quantify over, it stays below
`2^28`, so no truncation is modelled. -/
def dvl_go (data : List Nat) : Nat → Nat → Nat → Nat × Nat
  | 0, result, offset => (result, offset)
  | gas + 1, result, offset =>
    let byte := data.getD offset 0 % 256
    let r := result * 128 + byte % 128
    let o := offset + 1
    if 128 ≤ byte ∧ 0 < gas then
      dvl_go data gas r o
    else
      (r, o)

/-- `decode_variable_length` (midiplayer.c:61-70): returns the decoded value
and the track with its cursor advanced. -/
def decode_variable_length (t : TrackData) : Nat × TrackData :=
  if t.length ≤ t.offset then (0, t)
  else
    let p := dvl_go t.data (t.length - t.offset) 0 t.offset
    (p.1, { t with offset := p.2 })

/-- `update_tick` (midiplayer.c:72-74). -/
def update_tick (t : TrackData) : TrackData :=
  let p := decode_variable_length t
  { p.2 with tick := p.2.tick + p.1 }

/-- `update_command` (midiplayer.c:76-84): latch a new status byte only when
the byte at the cursor has its high bit set. -/
def update_command (t : TrackData) : TrackData :=
  if t.length = 0 ∨ t.dataActive = false then t
  else
    let temp := byteAt t t.offset
    if 128 ≤ temp then { t with offset := t.offset + 1, message := temp }
    else t

/-- The `memcpy(track->long_msg, &track->data[track->offset], len)` source
bytes (midiplayer.c:117). -/
def memcpy_bytes (t : TrackData) (len : Nat) : List Nat :=
  (List.range len).map (fun i => byteAt t (t.offset + i))

/-- `update_message` (midiplayer.c:86-122).  The returned `Bool` is `true`
exactly when the C code reads an index `≥ track->length`, i.e. outside the
track's buffer (the C code performs those reads unconditionally; the flag
only records that it happened).  Data bytes are combined with `*`/`+`
instead of `<<`/`|` (identical on the byte-sized values read); the final
`track->message |= track->temp` keeps the genuine bitwise or.  `message`
is a `uint32_t`; `message ||| temp` never exceeds `2^32` when `message`
does not, so no truncation is inserted. -/
def update_message (t : TrackData) : TrackData × Bool :=
  if t.length = 0 ∨ t.dataActive = false then (t, false)
  else
    let msg_type := t.message % 256
    let p :=
      if msg_type < 0xC0 then
        ({ t with temp := byteAt t t.offset * 256 + byteAt t (t.offset + 1) * 65536,
                  offset := t.offset + 2 },
         decide (t.length ≤ t.offset + 1))
      else if msg_type < 0xE0 then
        ({ t with temp := byteAt t t.offset * 256, offset := t.offset + 1 },
         decide (t.length ≤ t.offset))
      else if msg_type < 0xF0 then
        ({ t with temp := byteAt t t.offset * 256 + byteAt t (t.offset + 1) * 65536,
                  offset := t.offset + 2 },
         decide (t.length ≤ t.offset + 1))
      else if msg_type = 0xFF ∨ msg_type = 0xF0 then
        let oobType := decide (msg_type = 0xFF ∧ t.length ≤ t.offset)
        let t1 := { t with temp := if msg_type = 0xFF then byteAt t t.offset * 256 else 0,
                           offset := t.offset + 1 }
        let q := decode_variable_length t1
        let len := q.1
        let t2 := q.2
        let grow := t2.long_msg_capacity < len
        let t3 := { t2 with
                    long_msg := memcpy_bytes t2 len ++
                      (if grow then [] else t2.long_msg.drop len),
                    long_msg_len := len,
                    long_msg_capacity := if grow then len else t2.long_msg_capacity,
                    offset := t2.offset + len }
        (t3, oobType || decide (0 < len ∧ t2.length < t2.offset + len))
      else (t, false)
    ({ p.1 with message := p.1.message ||| p.1.temp }, p.2)

/-- `process_meta_event` (midiplayer.c:124-136).  The `double` multiplier is
modelled by `ℚ`; `(bpm * 10) / time_div` is exact rational division (the C
double division rounds, and at `time_div = 0` yields `+inf` where `ℚ`
yields `0`, but both are then clamped from below by 1). -/
def process_meta_event (t : TrackData) (multiplier : ℚ) (bpm : Nat)
    (time_div : Nat) : TrackData × ℚ × Nat :=
  let meta_type := (t.message / 256) % 256
  if meta_type = 0x51 then
    let bpm2 := t.long_msg.getD 0 0 * 65536 + t.long_msg.getD 1 0 * 256 +
      t.long_msg.getD 2 0
    let m : ℚ := (bpm2 * 10 : Nat) / (time_div : ℚ)
    let m := if m < 1 then 1 else m
    (t, m, bpm2)
  else if meta_type = 0x2F then
    ({ t with data := [], dataActive := false, length := 0 }, multiplier, bpm)
  else (t, multiplier, bpm)

/-- Classification of a decoded message word by `play_midi`
(midiplayer.c:224-250): status byte, channel and command nibbles, note and
velocity data bytes.  `status & 0x0F` is `status % 16` and
`status & 0xF0` is `status / 16 * 16`. -/
inductive Dispatch where
  | noteOn (velocity channel note : Nat)
  | noteOff (channel note : Nat)
  | meta
  | sysex
  | other
deriving DecidableEq

/-- The event classification switch of `play_midi` (midiplayer.c:231-250).
For `noteOn` the constructor arguments are listed in the order the C code
passes them to `note_on_callback(velocity, channel, note)`
(midiplayer.c:235). -/
def classify (message : Nat) : Dispatch :=
  let status := message % 256
  let channel := status % 16
  let command := status / 16 * 16
  let note := (message / 256) % 256
  let velocity := (message / 65536) % 256
  if command = 0x90 then
    if 0 < velocity then Dispatch.noteOn velocity channel note
    else Dispatch.noteOff channel note
  else if command = 0x80 then Dispatch.noteOff channel note
  else if status = 0xFF then Dispatch.meta
  else if status = 0xF0 then Dispatch.sysex
  else Dispatch.other

/-- The argument triple `play_midi` passes to the registered note-on
callback: `note_on_callback(velocity, channel, note)` (midiplayer.c:235). -/
def noteOnInvocation (message : Nat) : Nat × Nat × Nat :=
  ((message / 65536) % 256, (message % 256) % 16, (message / 256) % 256)

/-- Modelled from the spec and src/midiplayer.h:22: the public interface
declares `typedef void (*NoteOnCallback)(uint8_t channel, uint8_t note,
uint8_t velocity)`, so the argument triple a conforming engine would pass
for a message is `(channel, note, velocity)`. -/
def noteOnDeclaredOrder (message : Nat) : Nat × Nat × Nat :=
  ((message % 256) % 16, (message / 256) % 256, (message / 65536) % 256)

/-- One emitted event of the pump: the scheduler's track tick at dispatch
time, and the classification of the message dispatched. -/
abbrev PumpEvent := Nat × Dispatch

/-- One iteration of the inner event loop of `play_midi`
(midiplayer.c:221-254): decode the event at the cursor
(`update_command`, `update_message`), classify and dispatch it, process it
as a meta event when the status byte is `0xFF`, then (if the track is
still active) decode the next delta time.  Returns the new track state,
tempo state, and the dispatched event tagged with the track tick at
dispatch time. -/
def drainStep (td : Nat) (t : TrackData) (mult : ℚ) (bpm : Nat) :
    TrackData × ℚ × Nat × PumpEvent :=
  let t1 := update_command t
  let t2 := (update_message t1).1
  let ev : PumpEvent := (t2.tick, classify t2.message)
  let p :=
    if t2.message % 256 = 0xFF then process_meta_event t2 mult bpm td
    else (t2, mult, bpm)
  let t4 := if p.1.dataActive = true then update_tick p.1 else p.1
  (t4, p.2.1, p.2.2, ev)

/-- The inner event loop of `play_midi` for one track (midiplayer.c:220-255):
`while (tracks[i].data != NULL && tracks[i].tick <= tick)` run `drainStep`.
Fuel-ed: `none` means the loop was still running after `fuel` iterations. -/
def drainTrack (td : Nat) : Nat → Nat → TrackData → ℚ → Nat →
    Option (TrackData × ℚ × Nat × List PumpEvent)
  | 0, _, _, _, _ => none
  | fuel + 1, tick, t, mult, bpm =>
    if t.dataActive = true ∧ t.tick ≤ tick then
      let s := drainStep td t mult bpm
      match drainTrack td fuel tick s.1 s.2.1 s.2.2.1 with
      | none => none
      | some (t5, m5, b5, evs) => some (t5, m5, b5, s.2.2.2 :: evs)
    else some (t, mult, bpm, [])

/-- The per-track pass of the outer loop (midiplayer.c:216-263): each track
in order is drained (the drain is a no-op unless `data != NULL` and the
track is due), threading tempo state left to right. -/
def drainAll (td fuel tick : Nat) : List TrackData → ℚ → Nat →
    Option (List TrackData × ℚ × Nat × List PumpEvent)
  | [], mult, bpm => some ([], mult, bpm, [])
  | t :: ts, mult, bpm =>
    match drainTrack td fuel tick t mult bpm with
    | none => none
    | some (t2, m2, b2, evs) =>
      match drainAll td fuel tick ts m2 b2 with
      | none => none
      | some (ts2, m3, b3, evs2) => some (t2 :: ts2, m3, b3, evs ++ evs2)

/-- `delta_tick` computation (midiplayer.c:270-280): minimum of
`tracks[idx].tick - tick` over still-active tracks, starting from
`UINT64_MAX`.  The C subtraction is on `uint64_t`; under the invariant
`tick ≤ tracks[idx].tick` proved below it never underflows, so truncated
`Nat` subtraction coincides with it. -/
def minDelta (tick : Nat) (tracks : List TrackData) : Nat :=
  tracks.foldl
    (fun acc t => if t.dataActive = true then min acc (t.tick - tick) else acc)
    (2 ^ 64 - 1)

/-- The outer `while (has_active_tracks)` pump of `play_midi`
(midiplayer.c:210-300), with the wall-clock sleeping abstracted away: the
returned second list records, for every iteration that advanced the global
tick, the multiplier used in that iteration's delay computation
`old = delta_tick * multiplier` (midiplayer.c:290).  `none` = the pump was
still running after `fuel` outer iterations (or an inner drain ran past the
fuel). -/
def pumpRun (td : Nat) : Nat → Nat → List TrackData → ℚ → Nat →
    Option (List PumpEvent × List ℚ)
  | 0, _, _, _, _ => none
  | fuel + 1, tick, tracks, mult, bpm =>
    match drainAll td (fuel + 1) tick tracks mult bpm with
    | none => none
    | some (tracks2, mult2, bpm2, evs) =>
      if tracks2.all (fun t => !t.dataActive) then some (evs, [])
      else
        let delta := minDelta tick tracks2
        match pumpRun td fuel (tick + delta) tracks2 mult2 bpm2 with
        | none => none
        | some (evs2, ms) => some (evs ++ evs2, mult2 :: ms)

/-- Track state as produced by `load_midi_file` (midiplayer.c:377-410): a
fresh track over the chunk bytes, a 256-byte scratch buffer (modelled
zero-filled), and one initial `update_tick`. -/
def mkTrack (bytes : List Nat) : TrackData :=
  update_tick
    { data := bytes, dataActive := true, tick := 0, offset := 0,
      length := bytes.length, message := 0, temp := 0,
      long_msg := List.replicate 256 0, long_msg_len := 0,
      long_msg_capacity := 256, data_capacity := bytes.length }

/-- `play_midi`'s initial scheduler state applied to loaded tracks
(midiplayer.c:184-186): global tick 0, `multiplier = 0`,
`bpm = 500000`. -/
def playSession (td : Nat) (fuel : Nat) (tracks : List TrackData) :
    Option (List PumpEvent × List ℚ) :=
  pumpRun td fuel 0 tracks 0 500000

/-- A valid variable-length quantity: every byte but the last has its high
(continuation) bit set, the last has it clear; all are bytes. -/
def isValidVLQ : List Nat → Bool
  | [] => false
  | [b] => decide (b < 128)
  | b :: rest => decide (128 ≤ b) && decide (b < 256) && isValidVLQ rest

/-- The integer a variable-length quantity encodes (7 value bits per
byte, big-endian). -/
def vlqValue (bs : List Nat) : Nat :=
  bs.foldl (fun a b => a * 128 + b % 128) 0

/-- `RING_BUFFER_SIZE` (src/main.c:18). -/
def RING_BUFFER_SIZE : Nat := 13414000

/-- `MidiEvent` (src/main.c:26-32); the `double timestamp` is modelled
by `ℚ`. -/
structure MidiEvent where
  note : Nat
  velocity : Nat
  channel : Nat
  isNoteOn : Bool
  timestamp : ℚ
deriving DecidableEq

/-- `EventQueue` (src/main.c:45-50): the backing array is modelled as a
total function from indices to events (only indices `< RING_BUFFER_SIZE`
are ever used); the mutex is not part of the sequential state. -/
structure EventQueue where
  events : Nat → MidiEvent
  head : Nat
  tail : Nat

/-- `queue_push` (src/main.c:91-102). -/
def queue_push (q : EventQueue) (e : MidiEvent) : EventQueue × Bool :=
  let next := (q.head + 1) % RING_BUFFER_SIZE
  if next ≠ q.tail then
    ({ events := fun i => if i = q.head then e else q.events i,
       head := next, tail := q.tail }, true)
  else (q, false)

/-- `queue_pop` (src/main.c:104-114): the written-through `*event` is
returned as an `Option`. -/
def queue_pop (q : EventQueue) : EventQueue × Option MidiEvent :=
  if q.tail ≠ q.head then
    ({ q with tail := (q.tail + 1) % RING_BUFFER_SIZE }, some (q.events q.tail))
  else (q, none)

/-- Occupied count of the ring buffer: `(head - tail) mod capacity`. -/
def occ (q : EventQueue) : Nat :=
  (q.head + RING_BUFFER_SIZE - q.tail) % RING_BUFFER_SIZE

/-- Abstraction of the ring buffer to the list of queued events, from
`tail` (next to pop) to `head` (next free slot). -/
def absQ (q : EventQueue) : List MidiEvent :=
  (List.range (occ q)).map (fun i => q.events ((q.tail + i) % RING_BUFFER_SIZE))

/-- The queue's indices are in range. -/
def ValidQ (q : EventQueue) : Prop :=
  q.head < RING_BUFFER_SIZE ∧ q.tail < RING_BUFFER_SIZE

instance (q : EventQueue) : Decidable (ValidQ q) := by
  unfold ValidQ
  infer_instance

/-- One producer/consumer operation on the queue. -/
inductive QOp where
  | push (e : MidiEvent)
  | pop

/-- Run a sequence of operations against the C queue, collecting the
events the pops delivered, in order. -/
def runOps (q : EventQueue) : List QOp → EventQueue × List MidiEvent
  | [] => (q, [])
  | QOp.push e :: ops => runOps (queue_push q e).1 ops
  | QOp.pop :: ops =>
    let p := queue_pop q
    let r := runOps p.1 ops
    match p.2 with
    | some e => (r.1, e :: r.2)
    | none => r

/-- Reference model of a push: append unless the queue already holds
`capacity - 1` events (one slot stays free to distinguish full from
empty), in which case the event is dropped. -/
def modelPush (l : List MidiEvent) (e : MidiEvent) : List MidiEvent :=
  if l.length + 1 < RING_BUFFER_SIZE then l ++ [e] else l

/-- Reference FIFO model: run the same operations against a plain list,
popping from the front. -/
def runModel (l : List MidiEvent) : List QOp → List MidiEvent × List MidiEvent
  | [] => (l, [])
  | QOp.push e :: ops => runModel (modelPush l e) ops
  | QOp.pop :: ops =>
    match l with
    | [] => runModel [] ops
    | x :: xs =>
      let r := runModel xs ops
      (r.1, x :: r.2)

/-- Predicate: the dispatch of a pump event is a note event. -/
def isNoteEvent : Dispatch → Bool
  | Dispatch.noteOn _ _ _ => true
  | Dispatch.noteOff _ _ => true
  | _ => false

/-- Ticks of the note events of a pump trace. -/
def noteTicks (evs : List PumpEvent) : List Nat :=
  (evs.filter (fun e => isNoteEvent e.2)).map (fun e => e.1)

/-- Concrete track: delta times 0, 10, 10 (events at ticks 0, 10, 20),
three Note-On events, then End-of-Track. -/
def trackA : TrackData :=
  mkTrack [0x00, 0x90, 0x3C, 0x64, 0x0A, 0x90, 0x3E, 0x64,
           0x0A, 0x90, 0x40, 0x64, 0x00, 0xFF, 0x2F, 0x00]

/-- Concrete track: delta times 0, 5, 10 (events at ticks 0, 5, 15),
three Note-On events, then End-of-Track. -/
def trackB : TrackData :=
  mkTrack [0x00, 0x90, 0x3D, 0x64, 0x05, 0x90, 0x3F, 0x64,
           0x0A, 0x90, 0x41, 0x64, 0x00, 0xFF, 0x2F, 0x00]

/-- Concrete track with Note-On events at ticks 0 and 10 and an
End-of-Track meta event, and no Set-Tempo event anywhere. -/
def trackC6 : TrackData :=
  mkTrack [0x00, 0x90, 0x3C, 0x64, 0x0A, 0x90, 0x3E, 0x64, 0x00, 0xFF, 0x2F, 0x00]

/-- Concrete track holding a single Note-On event and no End-of-Track
meta event: its buffer is exhausted after the first event. -/
def badTrack : TrackData := mkTrack [0x00, 0x90, 0x3C, 0x64]

/-- The family of states `play_midi` keeps revisiting on `badTrack`: the
buffer (4 bytes, latched Note-On message) is exhausted, the cursor sits at
or past the end, and the track is still active. -/
def stuckTrack (o tmp : Nat) : TrackData :=
  { data := [0x00, 0x90, 0x3C, 0x64], dataActive := true, tick := 0,
    offset := o, length := 4, message := 0x90 ||| (0x3C * 256 + 0x64 * 65536),
    temp := tmp, long_msg := List.replicate 256 0, long_msg_len := 0,
    long_msg_capacity := 256, data_capacity := 4 }

/-- Concrete track whose next event is a meta event of type 0x51 with a
declared payload length of 5 bytes while only 0 bytes remain after the
length field: `[0xFF, 0x51, 0x05]`, buffer length 3. -/
def c2track : TrackData :=
  { data := [0xFF, 0x51, 0x05], dataActive := true, tick := 0, offset := 0,
    length := 3, message := 0, temp := 0, long_msg := List.replicate 256 0,
    long_msg_len := 0, long_msg_capacity := 256, data_capacity := 3 }

/-- Concrete track state right after decoding a Set-Tempo meta event whose
3-byte payload `{0x07, 0xA1, 0x20}` (= 500000) sits in the scratch
buffer. -/
def c5track : TrackData :=
  { data := [], dataActive := true, tick := 0, offset := 0, length := 0,
    message := 0xFF ||| (0x51 * 256), temp := 0,
    long_msg := [0x07, 0xA1, 0x20], long_msg_len := 3,
    long_msg_capacity := 256, data_capacity := 0 }

/-- Concrete track state as for `c5track` but with a zero tempo payload. -/
def c5zero : TrackData :=
  { c5track with long_msg := [0x00, 0x00, 0x00] }

/-- Concrete two-byte track buffer holding the valid variable-length
quantity `[0x81, 0x00]` (encoding 128). -/
def vlqTrack : TrackData :=
  { data := [0x81, 0x00], dataActive := true, tick := 0, offset := 0,
    length := 2, message := 0, temp := 0, long_msg := [], long_msg_len := 0,
    long_msg_capacity := 0, data_capacity := 2 }

/-- Concrete track state for the running-status theorem: a latched Note-On
status `0x90` and a data byte `0x3C` (high bit clear) at the cursor. -/
def rsTrack : TrackData :=
  { data := [0x3C, 0x64], dataActive := true, tick := 0, offset := 0,
    length := 2, message := 0x90, temp := 0, long_msg := [],
    long_msg_len := 0, long_msg_capacity := 0, data_capacity := 2 }

/-- A concrete midi event. -/
def e0 : MidiEvent :=
  { note := 60, velocity := 100, channel := 0, isNoteOn := true, timestamp := 0 }

/-- The empty queue with a zero-filled backing array. -/
def q0 : EventQueue := { events := fun _ => e0, head := 0, tail := 0 }

theorem testBit_mul256_low (k i : Nat) (hi : i < 8) :
    (k * 256).testBit i = false := by
  rw [Nat.testBit_to_div_mod]
  have h : k * 256 / 2 ^ i = 2 ^ (8 - i) * k := by
    have h256 : (256 : Nat) = 2 ^ 8 := by norm_num
    rw [h256, Nat.mul_div_assoc k (Nat.pow_dvd_pow 2 (by omega)),
      Nat.pow_div (by omega) (by norm_num), Nat.mul_comm]
  rw [h]
  have hd : 2 ∣ 2 ^ (8 - i) * k :=
    Dvd.dvd.mul_right (dvd_pow_self 2 (by omega)) k
  have h2 : 2 ^ (8 - i) * k % 2 = 0 := by omega
  simp [h2]

theorem lor_mul256_mod (m k : Nat) : (m ||| k * 256) % 256 = m % 256 := by
  apply Nat.eq_of_testBit_eq
  intro i
  have h256 : (256 : Nat) = 2 ^ 8 := by norm_num
  rw [h256, Nat.testBit_mod_two_pow, Nat.testBit_mod_two_pow, Nat.testBit_lor]
  rcases Nat.lt_or_ge i 8 with hi | hi
  · simp [testBit_mul256_low k i hi]
  · have : ¬ i < 8 := by omega
    simp [this]

theorem getD_of_take3 (l : List Nat) (a b c : Nat) (h : l.take 3 = [a, b, c]) :
    l.getD 0 0 = a ∧ l.getD 1 0 = b ∧ l.getD 2 0 = c := by
  rcases l with _ | ⟨x, _ | ⟨y, _ | ⟨z, l⟩⟩⟩ <;> simp_all [List.take]

/-- C5: on a Set-Tempo meta event (type 0x51) the 3-byte big-endian payload
is decoded as microseconds-per-quarter-note and the multiplier is recomputed
as `(tempo * 10) / ticks_per_quarter` (10 = the 100-nanosecond scaling
constant) clamped to a minimum of 1: (i) payload `{0x07, 0xA1, 0x20}` at
division 480 decodes to 500000 and yields multiplier `500000 * 10 / 480`;
(ii) a tempo of 0 yields multiplier exactly 1; (iii) the recomputed
multiplier is never below 1. -/
theorem set_tempo_multiplier_spec :
    (∀ (t : TrackData) (mult : ℚ) (bpm : Nat),
       (t.message / 256) % 256 = 0x51 →
       t.long_msg.take 3 = [0x07, 0xA1, 0x20] →
       (process_meta_event t mult bpm 480).2.1 = (500000 * 10 : ℚ) / 480 ∧
       (process_meta_event t mult bpm 480).2.2 = 500000) ∧
    (∀ (t : TrackData) (mult : ℚ) (bpm td : Nat),
       (t.message / 256) % 256 = 0x51 →
       t.long_msg.take 3 = [0x00, 0x00, 0x00] →
       (process_meta_event t mult bpm td).2.1 = 1) ∧
    (∀ (t : TrackData) (mult : ℚ) (bpm td : Nat),
       (t.message / 256) % 256 = 0x51 →
       1 ≤ (process_meta_event t mult bpm td).2.1) := by
  refine ⟨?_, ?_, ?_⟩
  · intro t mult bpm hm hp
    obtain ⟨h0, h1, h2⟩ := getD_of_take3 _ _ _ _ hp
    simp only [process_meta_event, hm, if_pos, h0, h1, h2]
    norm_num
  · intro t mult bpm td hm hp
    obtain ⟨h0, h1, h2⟩ := getD_of_take3 _ _ _ _ hp
    simp only [process_meta_event, hm, if_pos, h0, h1, h2]
    norm_num
  · intro t mult bpm td hm
    simp only [process_meta_event, hm, if_pos]
    split
    · norm_num
    · next h => push_neg at h; simpa using h

/-- Witness for `set_tempo_multiplier_spec`: the concrete Set-Tempo state
`c5track` with payload `{0x07, 0xA1, 0x20}` at division 480. -/
theorem set_tempo_multiplier_spec_witness :
    (process_meta_event c5track 0 500000 480).2.1 = (500000 * 10 : ℚ) / 480 ∧
    (process_meta_event c5track 0 500000 480).2.2 = 500000 :=
  set_tempo_multiplier_spec.1 c5track 0 500000 (by decide) (by decide)

theorem update_message_lt_C0 (t : TrackData)
    (ha : t.dataActive = true) (hl : t.length ≠ 0)
    (h1 : t.message % 256 < 0xC0) :
    update_message t =
      ({ t with
          temp := byteAt t t.offset * 256 + byteAt t (t.offset + 1) * 65536,
          offset := t.offset + 2,
          message := t.message |||
            (byteAt t t.offset * 256 + byteAt t (t.offset + 1) * 65536) },
       decide (t.length ≤ t.offset + 1)) := by
  have hcond : (t.length = 0 ∨ t.dataActive = false) ↔ False := by
    simp [ha, hl]
  unfold update_message
  simp only [hcond, if_false]
  rw [if_pos h1]

theorem update_message_C0_DF (t : TrackData)
    (ha : t.dataActive = true) (hl : t.length ≠ 0)
    (h1 : ¬ t.message % 256 < 0xC0) (h2 : t.message % 256 < 0xE0) :
    update_message t =
      ({ t with
          temp := byteAt t t.offset * 256,
          offset := t.offset + 1,
          message := t.message ||| byteAt t t.offset * 256 },
       decide (t.length ≤ t.offset)) := by
  have hcond : (t.length = 0 ∨ t.dataActive = false) ↔ False := by
    simp [ha, hl]
  unfold update_message
  simp only [hcond, if_false]
  rw [if_neg h1, if_pos h2]

theorem update_message_E0_EF (t : TrackData)
    (ha : t.dataActive = true) (hl : t.length ≠ 0)
    (h1 : ¬ t.message % 256 < 0xC0) (h2 : ¬ t.message % 256 < 0xE0)
    (h3 : t.message % 256 < 0xF0) :
    update_message t =
      ({ t with
          temp := byteAt t t.offset * 256 + byteAt t (t.offset + 1) * 65536,
          offset := t.offset + 2,
          message := t.message |||
            (byteAt t t.offset * 256 + byteAt t (t.offset + 1) * 65536) },
       decide (t.length ≤ t.offset + 1)) := by
  have hcond : (t.length = 0 ∨ t.dataActive = false) ↔ False := by
    simp [ha, hl]
  unfold update_message
  simp only [hcond, if_false]
  rw [if_neg h1, if_neg h2, if_pos h3]

/-- C7: when the byte at the cursor in the status position has its high bit
clear, `update_command` reuses the previously latched status (the whole
track state, message and cursor included, is unchanged), and `update_message`
then consumes that byte as the event's first data byte: it lands in bits
8..15 of `temp`, the status byte of the resulting message is still the
latched one, and the cursor advances past it by the data-byte count of the
latched status. -/
theorem running_status_reuse (t : TrackData)
    (ha : t.dataActive = true) (hl : t.length ≠ 0)
    (hb : byteAt t t.offset < 128)
    (_hs : 128 ≤ t.message % 256) (hf : t.message % 256 < 0xF0) :
    update_command t = t ∧
    ((update_message t).1.temp / 256) % 256 = byteAt t t.offset ∧
    (update_message t).1.message % 256 = t.message % 256 ∧
    (update_message t).1.offset = t.offset +
      (if t.message % 256 < 0xC0 then 2
       else if t.message % 256 < 0xE0 then 1 else 2) := by
  have hcmd : update_command t = t := by
    unfold update_command
    rw [if_neg (by simp [ha, hl])]
    simp only []
    rw [if_neg (by omega)]
  have hbyte : byteAt t t.offset < 256 := Nat.mod_lt _ (by norm_num)
  have hbyte2 : byteAt t (t.offset + 1) < 256 := Nat.mod_lt _ (by norm_num)
  refine ⟨hcmd, ?_⟩
  by_cases h1 : t.message % 256 < 0xC0
  · rw [update_message_lt_C0 t ha hl h1]
    dsimp only
    refine ⟨by omega, ?_, by simp [h1]⟩
    have harith : byteAt t t.offset * 256 + byteAt t (t.offset + 1) * 65536 =
        (byteAt t t.offset + byteAt t (t.offset + 1) * 256) * 256 := by ring
    simp only [harith]
    exact lor_mul256_mod t.message _
  · by_cases h2 : t.message % 256 < 0xE0
    · rw [update_message_C0_DF t ha hl h1 h2]
      dsimp only
      refine ⟨by omega, ?_, by simp [h1, h2]⟩
      exact lor_mul256_mod t.message _
    · rw [update_message_E0_EF t ha hl h1 h2 hf]
      dsimp only
      refine ⟨by omega, ?_, by simp [h1, h2]⟩
      have harith : byteAt t t.offset * 256 + byteAt t (t.offset + 1) * 65536 =
          (byteAt t t.offset + byteAt t (t.offset + 1) * 256) * 256 := by ring
      simp only [harith]
      exact lor_mul256_mod t.message _

/-- Witness for `running_status_reuse`: latched Note-On status 0x90 with a
data byte 0x3C at the cursor. -/
theorem running_status_reuse_witness :
    update_command rsTrack = rsTrack ∧
    ((update_message rsTrack).1.temp / 256) % 256 = byteAt rsTrack rsTrack.offset ∧
    (update_message rsTrack).1.message % 256 = rsTrack.message % 256 ∧
    (update_message rsTrack).1.offset = rsTrack.offset +
      (if rsTrack.message % 256 < 0xC0 then 2
       else if rsTrack.message % 256 < 0xE0 then 1 else 2) :=
  running_status_reuse rsTrack (by decide) (by decide) (by decide) (by decide)
    (by decide)

/-- C8: a decoded Note-On (status high nibble 0x9) with velocity 0 is
classified exactly like an explicit Note-Off (status high nibble 0x8) with
the same channel and note: the dispatch is `noteOff channel note` (the
note-off callback's arguments), and it is never a `noteOn` dispatch. -/
theorem noteon_vel0_is_noteoff (channel note vel2 : Nat)
    (hc : channel < 16) (hn : note < 256) (_hv : vel2 < 256) :
    classify (0x90 + channel + note * 256) = Dispatch.noteOff channel note ∧
    classify (0x80 + channel + note * 256 + vel2 * 65536) =
      Dispatch.noteOff channel note ∧
    (∀ v c n, classify (0x90 + channel + note * 256) ≠ Dispatch.noteOn v c n) := by
  have h1 : (0x90 + channel + note * 256) % 256 = 0x90 + channel := by omega
  have h2 : (0x90 + channel) % 16 = channel := by omega
  have h3 : (0x90 + channel) / 16 * 16 = 0x90 := by omega
  have h4 : (0x90 + channel + note * 256) / 256 % 256 = note := by omega
  have h5 : (0x90 + channel + note * 256) / 65536 % 256 = 0 := by omega
  have g1 : (0x80 + channel + note * 256 + vel2 * 65536) % 256 =
      0x80 + channel := by omega
  have g2 : (0x80 + channel) % 16 = channel := by omega
  have g3 : (0x80 + channel) / 16 * 16 = 0x80 := by omega
  have g4 : (0x80 + channel + note * 256 + vel2 * 65536) / 256 % 256 = note := by
    omega
  refine ⟨?_, ?_, ?_⟩
  · unfold classify
    simp only [h1, h2, h3, h4, h5]
    norm_num
  · unfold classify
    simp only [g1, g2, g3, g4]
    norm_num
  · intro v c n
    unfold classify
    simp only [h1, h2, h3, h4, h5]
    norm_num
    intro h
    exact Dispatch.noConfusion h

/-- Witness for `noteon_vel0_is_noteoff`: channel 0, note 60; the explicit
Note-Off carries velocity 100. -/
theorem noteon_vel0_is_noteoff_witness :
    classify (0x90 + 0 + 60 * 256) = Dispatch.noteOff 0 60 ∧
    classify (0x80 + 0 + 60 * 256 + 100 * 65536) = Dispatch.noteOff 0 60 ∧
    (∀ v c n, classify (0x90 + 0 + 60 * 256) ≠ Dispatch.noteOn v c n) :=
  noteon_vel0_is_noteoff 0 60 100 (by decide) (by decide) (by decide)

/-- C10 (refuted): for the Note-On message with channel 0, note 60,
velocity 100, `play_midi` invokes the registered note-on callback with
argument order `(velocity, channel, note) = (100, 0, 60)`
(midiplayer.c:179,235), not the `(channel, note, velocity) = (0, 60, 100)`
order declared by the public interface (midiplayer.h:22): the first
parameter of a conforming consumer receives the velocity. -/
theorem noteon_callback_order_bug :
    noteOnInvocation (0x90 + 60 * 256 + 100 * 65536) = (100, 0, 60) ∧
    noteOnDeclaredOrder (0x90 + 60 * 256 + 100 * 65536) = (0, 60, 100) ∧
    noteOnInvocation (0x90 + 60 * 256 + 100 * 65536) ≠
      noteOnDeclaredOrder (0x90 + 60 * 256 + 100 * 65536) := by
  refine ⟨by decide, by decide, by decide⟩

/-- C2 (refuted): on `c2track` — a 3-byte track `[0xFF, 0x51, 0x05]` whose
meta event declares a 5-byte payload with 0 bytes remaining — one decode
step (`update_command` then `update_message`) reads 5 bytes past the
buffer end (flag `true`) and leaves the cursor at offset 8 on a buffer of
length 3, violating `offset ≤ length`; the meta length is not clamped to
the remaining bytes. -/
theorem update_message_oob_overrun :
    (update_message (update_command c2track)).2 = true ∧
    (update_message (update_command c2track)).1.offset = 8 ∧
    (update_message (update_command c2track)).1.length = 3 ∧
    ¬ (update_message (update_command c2track)).1.offset ≤
      (update_message (update_command c2track)).1.length := by
  refine ⟨by decide, by decide, by decide, by decide⟩

end MidiPlayer

namespace MidiPlayer

theorem getD_of_drop (l : List Nat) (i b : Nat) (rest : List Nat)
    (h : l.drop i = b :: rest) : l.getD i 0 = b := by
  have h2 : l[i]? = some b := by
    have h3 := List.getElem?_drop l i 0
    simp [h] at h3
    simpa using h3.symm
  simp [List.getD_eq_getElem?_getD, h2]

theorem isValidVLQ_ne_nil {bs : List Nat} (h : isValidVLQ bs = true) : bs ≠ [] := by
  intro hnil
  rw [hnil] at h
  simp [isValidVLQ] at h

theorem dvl_go_valid : ∀ (bs rest data : List Nat) (gas result offset : Nat),
    isValidVLQ bs = true →
    data.drop offset = bs ++ rest →
    bs.length ≤ gas →
    dvl_go data gas result offset =
      (bs.foldl (fun a b => a * 128 + b % 128) result, offset + bs.length)
  | [], _, _, _, _, _, hv, _, _ => by simp [isValidVLQ] at hv
  | [b], rest, data, gas, result, offset, hv, hd, hg => by
    have hb : b < 128 := by simpa [isValidVLQ] using hv
    have hbyte : data.getD offset 0 = b := getD_of_drop _ _ _ _ (by simpa using hd)
    have hb256 : b % 256 = b := Nat.mod_eq_of_lt (by omega)
    obtain ⟨g, rfl⟩ : ∃ g, gas = g + 1 := by
      simp only [List.length_cons, List.length_nil] at hg
      exact ⟨gas - 1, by omega⟩
    rw [dvl_go]
    simp only [hbyte, hb256]
    rw [if_neg (by omega)]
    simp [List.foldl]
  | b :: b2 :: bs, rest, data, gas, result, offset, hv, hd, hg => by
    have hv2 : (128 ≤ b ∧ b < 256) ∧ isValidVLQ (b2 :: bs) = true := by
      simpa [isValidVLQ] using hv
    have hbyte : data.getD offset 0 = b := getD_of_drop _ _ _ _ (by simpa using hd)
    have hb256 : b % 256 = b := Nat.mod_eq_of_lt (by omega)
    have hd2 : data.drop (offset + 1) = (b2 :: bs) ++ rest := by
      have h3 : (data.drop offset).drop 1 = data.drop (offset + 1) :=
        List.drop_drop 1 offset data
      rw [← h3, hd]
      simp
    obtain ⟨g, rfl⟩ : ∃ g, gas = g + 1 := by
      simp only [List.length_cons] at hg
      exact ⟨gas - 1, by omega⟩
    have ih := dvl_go_valid (b2 :: bs) rest data g (result * 128 + b % 128)
      (offset + 1) hv2.2 hd2 (by simp at hg ⊢; omega)
    rw [dvl_go]
    simp only [hbyte, hb256]
    rw [if_pos (by constructor <;> [exact hv2.1.1; (simp at hg; omega)])]
    rw [ih]
    have h2 : offset + 1 + (b2 :: bs).length = offset + (b :: b2 :: bs).length := by
      simp only [List.length_cons]
      omega
    rw [h2]
    rfl

theorem dvl_go_le : ∀ (gas : Nat) (data : List Nat) (result offset : Nat),
    (dvl_go data gas result offset).2 ≤ offset + gas := by
  intro gas
  induction gas with
  | zero => intro data result offset; simp [dvl_go]
  | succ g ih =>
    intro data result offset
    rw [dvl_go]
    split
    · exact le_trans (ih data _ (offset + 1)) (by omega)
    · simp only []
      omega

theorem dvl_go_trunc : ∀ (bs data : List Nat) (result offset : Nat),
    data.drop offset = bs → bs ≠ [] →
    (∀ b ∈ bs, 128 ≤ b ∧ b < 256) →
    dvl_go data bs.length result offset =
      (bs.foldl (fun a b => a * 128 + b % 128) result, offset + bs.length)
  | [], _, _, _, _, hne, _ => by simp at hne
  | [b], data, result, offset, hd, _, hb => by
    have hbb := hb b (by simp)
    have hbyte : data.getD offset 0 = b := getD_of_drop _ _ _ _ hd
    have hb256 : b % 256 = b := Nat.mod_eq_of_lt (by omega)
    simp only [List.length_cons, List.length_nil]
    rw [dvl_go]
    simp only [hbyte, hb256]
    rw [if_neg (by omega)]
    simp [List.foldl]
  | b :: b2 :: bs, data, result, offset, hd, _, hb => by
    have hbb := hb b (by simp)
    have hbyte : data.getD offset 0 = b := getD_of_drop _ _ _ _ hd
    have hb256 : b % 256 = b := Nat.mod_eq_of_lt (by omega)
    have hd2 : data.drop (offset + 1) = b2 :: bs := by
      have h3 : (data.drop offset).drop 1 = data.drop (offset + 1) :=
        List.drop_drop 1 offset data
      rw [← h3, hd]
      simp
    have ih := dvl_go_trunc (b2 :: bs) data (result * 128 + b % 128)
      (offset + 1) hd2 (by simp)
      (fun x hx => hb x (List.mem_cons_of_mem b hx))
    simp only [List.length_cons] at ih ⊢
    rw [dvl_go]
    simp only [hbyte, hb256]
    rw [if_pos (And.intro hbb.1 (Nat.succ_pos _))]
    rw [ih]
    have h2 : offset + 1 + (bs.length + 1) = offset + (bs.length + 1 + 1) := by
      omega
    rw [h2]
    rfl

/-- C1: the variable-length decoder consumes bytes contributing 7 bits each
(high bit = continuation flag), accumulating `result = (result << 7) | (byte & 0x7F)`,
stopping when a byte's high bit is clear or the buffer end is reached.
(i) On every valid 1-4-byte encoding at the cursor it returns exactly the
encoded integer, consuming exactly the encoding's 1-4 bytes.  (ii) It never
moves the cursor past the buffer end.  (iii) With the cursor at or past the
buffer end it returns the degenerate 0 and leaves the track unchanged.
(iv) On a truncated sequence (continuation bytes up to the buffer end) it
terminates at the buffer end, returning the latest partial value. -/
theorem decode_variable_length_spec :
    (∀ (t : TrackData) (bs rest : List Nat),
       isValidVLQ bs = true → 1 ≤ bs.length → bs.length ≤ 4 →
       t.data.drop t.offset = bs ++ rest →
       t.length = t.data.length →
       decode_variable_length t =
         (vlqValue bs, { t with offset := t.offset + bs.length })) ∧
    (∀ t : TrackData, t.offset ≤ t.length →
       (decode_variable_length t).2.offset ≤ t.length) ∧
    (∀ t : TrackData, t.length ≤ t.offset →
       decode_variable_length t = (0, t)) ∧
    (∀ (t : TrackData) (bs : List Nat),
       t.data.drop t.offset = bs → bs ≠ [] →
       (∀ b ∈ bs, 128 ≤ b ∧ b < 256) →
       t.length = t.data.length →
       decode_variable_length t =
         (vlqValue bs, { t with offset := t.length })) := by
  refine ⟨?_, ?_, ?_, ?_⟩
  · intro t bs rest hv _ _ hd hlen
    have hne : bs ≠ [] := isValidVLQ_ne_nil hv
    have hoff : t.offset < t.data.length := by
      by_contra hc
      rw [List.drop_eq_nil_of_le (by omega)] at hd
      exact hne (List.append_eq_nil.mp hd.symm).1
    have hdroplen : (t.data.drop t.offset).length = t.data.length - t.offset :=
      List.length_drop _ _
    rw [hd] at hdroplen
    simp only [List.length_append] at hdroplen
    have hgo := dvl_go_valid bs rest t.data (t.length - t.offset) 0 t.offset hv
      hd (by omega)
    unfold decode_variable_length
    rw [if_neg (by omega)]
    simp only [hgo, vlqValue]
  · intro t hle
    rcases le_or_lt t.length t.offset with h | h
    · unfold decode_variable_length
      rw [if_pos h]
      exact hle
    · unfold decode_variable_length
      rw [if_neg (by omega)]
      dsimp only
      have h2 := dvl_go_le (t.length - t.offset) t.data 0 t.offset
      omega
  · intro t h
    unfold decode_variable_length
    rw [if_pos h]
  · intro t bs hd hne hb hlen
    have hoff : t.offset < t.data.length := by
      by_contra hc
      rw [List.drop_eq_nil_of_le (by omega)] at hd
      exact hne hd.symm
    have hdroplen : (t.data.drop t.offset).length = t.data.length - t.offset :=
      List.length_drop _ _
    rw [hd] at hdroplen
    have hbs : bs.length = t.length - t.offset := by omega
    have hgo := dvl_go_trunc bs t.data 0 t.offset hd hne hb
    rw [hbs] at hgo
    have h4 : t.offset + (t.length - t.offset) = t.length := by omega
    rw [h4] at hgo
    unfold decode_variable_length
    rw [if_neg (by omega)]
    simp only [hgo, vlqValue]

/-- Witness for `decode_variable_length_spec`: the valid two-byte encoding
`[0x81, 0x00]` decodes to 128 and consumes both bytes. -/
theorem decode_variable_length_spec_witness :
    decode_variable_length vlqTrack = (128, { vlqTrack with offset := 2 }) :=
  decode_variable_length_spec.1 vlqTrack [0x81, 0x00] [] (by decide)
    (by decide) (by decide) (by decide) (by decide)

theorem absQ_length (q : EventQueue) : (absQ q).length = occ q := by
  simp [absQ]

theorem queue_push_full (q : EventQueue) (e : MidiEvent)
    (h : (q.head + 1) % RING_BUFFER_SIZE = q.tail) :
    queue_push q e = (q, false) := by
  unfold queue_push
  rw [if_neg (by simp [h])]

theorem queue_pop_empty (q : EventQueue) (h : q.tail = q.head) :
    queue_pop q = (q, none) := by
  unfold queue_pop
  rw [if_neg (by simp [h])]

theorem absQ_empty (q : EventQueue) (h : q.tail = q.head) : absQ q = [] := by
  have hocc : occ q = 0 := by
    unfold occ
    rw [h]
    simp [RING_BUFFER_SIZE]
  simp [absQ, hocc]

theorem absQ_push (q : EventQueue) (e : MidiEvent)
    (hh : q.head < RING_BUFFER_SIZE) (ht : q.tail < RING_BUFFER_SIZE)
    (hfull : (q.head + 1) % RING_BUFFER_SIZE ≠ q.tail) :
    (queue_push q e).2 = true ∧
    absQ (queue_push q e).1 = absQ q ++ [e] ∧
    (queue_push q e).1.head < RING_BUFFER_SIZE ∧
    (queue_push q e).1.tail < RING_BUFFER_SIZE := by
  have hstep : queue_push q e =
      ({ events := fun i => if i = q.head then e else q.events i,
         head := (q.head + 1) % RING_BUFFER_SIZE, tail := q.tail }, true) := by
    unfold queue_push
    rw [if_pos hfull]
  have hocc : occ (queue_push q e).1 = occ q + 1 := by
    rw [hstep]
    unfold occ
    dsimp only
    simp only [RING_BUFFER_SIZE] at hfull ⊢
    simp only [RING_BUFFER_SIZE] at hh ht
    omega
  refine ⟨by rw [hstep], ?_, ?_, ?_⟩
  · unfold absQ
    rw [hocc, List.range_succ, List.map_append]
    have hoccq : occ q < RING_BUFFER_SIZE :=
      Nat.mod_lt _ (by norm_num [RING_BUFFER_SIZE])
    congr 1
    · apply List.map_congr_left
      intro i hi
      rw [List.mem_range] at hi
      rw [hstep]
      dsimp only
      rw [if_neg]
      have hocc2 : occ q = (q.head + RING_BUFFER_SIZE - q.tail) %
          RING_BUFFER_SIZE := rfl
      rw [hocc2] at hi
      simp only [RING_BUFFER_SIZE] at hi hh ht ⊢
      omega
    · rw [hstep]
      dsimp only
      have hidx : (q.tail + occ q) % RING_BUFFER_SIZE = q.head := by
        have hocc2 : occ q = (q.head + RING_BUFFER_SIZE - q.tail) %
            RING_BUFFER_SIZE := rfl
        rw [hocc2]
        simp only [RING_BUFFER_SIZE] at hh ht ⊢
        omega
      simp [hidx]
  · rw [hstep]
    exact Nat.mod_lt _ (by norm_num [RING_BUFFER_SIZE])
  · rw [hstep]
    exact ht

theorem absQ_pop (q : EventQueue)
    (hh : q.head < RING_BUFFER_SIZE) (ht : q.tail < RING_BUFFER_SIZE)
    (hne : q.tail ≠ q.head) :
    (queue_pop q).2 = some (q.events q.tail) ∧
    absQ q = q.events q.tail :: absQ (queue_pop q).1 ∧
    (queue_pop q).1.head < RING_BUFFER_SIZE ∧
    (queue_pop q).1.tail < RING_BUFFER_SIZE := by
  have hstep : queue_pop q =
      ({ q with tail := (q.tail + 1) % RING_BUFFER_SIZE },
       some (q.events q.tail)) := by
    unfold queue_pop
    rw [if_pos hne]
  have hoccpos : 0 < occ q := by
    unfold occ
    simp only [RING_BUFFER_SIZE] at hh ht ⊢
    omega
  have hocc : occ (queue_pop q).1 = occ q - 1 := by
    rw [hstep]
    unfold occ
    dsimp only
    simp only [RING_BUFFER_SIZE] at hh ht ⊢
    omega
  refine ⟨by rw [hstep], ?_, ?_, ?_⟩
  · unfold absQ
    rw [hocc]
    obtain ⟨n, hn⟩ : ∃ n, occ q = n + 1 := ⟨occ q - 1, by omega⟩
    rw [hn]
    simp only [Nat.add_sub_cancel]
    rw [List.range_succ_eq_map, List.map_cons, List.map_map]
    have htl : (q.tail + 0) % RING_BUFFER_SIZE = q.tail := by
      simp [Nat.mod_eq_of_lt ht]
    rw [htl]
    congr 1
    apply List.map_congr_left
    intro i hi
    rw [List.mem_range] at hi
    rw [hstep]
    dsimp only [Function.comp]
    congr 1
    simp only [RING_BUFFER_SIZE] at hh ht ⊢
    omega
  · rw [hstep]
    exact hh
  · rw [hstep]
    exact Nat.mod_lt _ (by norm_num [RING_BUFFER_SIZE])

theorem full_iff_occ (q : EventQueue)
    (hh : q.head < RING_BUFFER_SIZE) (ht : q.tail < RING_BUFFER_SIZE) :
    (q.head + 1) % RING_BUFFER_SIZE = q.tail ↔ occ q = RING_BUFFER_SIZE - 1 := by
  unfold occ
  simp only [RING_BUFFER_SIZE] at hh ht ⊢
  omega

theorem runOps_sim : ∀ (ops : List QOp) (q : EventQueue),
    q.head < RING_BUFFER_SIZE → q.tail < RING_BUFFER_SIZE →
    (runOps q ops).2 = (runModel (absQ q) ops).2 ∧
    absQ (runOps q ops).1 = (runModel (absQ q) ops).1 ∧
    (runOps q ops).1.head < RING_BUFFER_SIZE ∧
    (runOps q ops).1.tail < RING_BUFFER_SIZE := by
  intro ops
  induction ops with
  | nil =>
    intro q hh ht
    exact ⟨rfl, rfl, hh, ht⟩
  | cons op ops ih =>
    intro q hh ht
    cases op with
    | push e =>
      by_cases hfull : (q.head + 1) % RING_BUFFER_SIZE = q.tail
      · have hq := queue_push_full q e hfull
        have hmodel : modelPush (absQ q) e = absQ q := by
          unfold modelPush
          rw [if_neg]
          rw [absQ_length]
          have := (full_iff_occ q hh ht).mp hfull
          omega
        simp only [runOps, runModel, hq, hmodel]
        exact ih q hh ht
      · obtain ⟨hok, habs, hh2, ht2⟩ := absQ_push q e hh ht hfull
        have hmodel : modelPush (absQ q) e = absQ q ++ [e] := by
          unfold modelPush
          rw [if_pos]
          rw [absQ_length]
          have h1 : occ q < RING_BUFFER_SIZE :=
            Nat.mod_lt _ (by norm_num [RING_BUFFER_SIZE])
          have h2 : occ q ≠ RING_BUFFER_SIZE - 1 :=
            fun hc => hfull ((full_iff_occ q hh ht).mpr hc)
          omega
        simp only [runOps, runModel, hmodel, ← habs]
        exact ih _ hh2 ht2
    | pop =>
      by_cases hemp : q.tail = q.head
      · have hq := queue_pop_empty q hemp
        have habs := absQ_empty q hemp
        simp only [runOps, runModel, hq, habs]
        have h2 := ih q hh ht
        rw [habs] at h2
        exact h2
      · obtain ⟨hsome, hcons, hh2, ht2⟩ := absQ_pop q hh ht hemp
        simp only [runOps, runModel, hcons, hsome]
        obtain ⟨ha, hb, hc, hd⟩ := ih (queue_pop q).1 hh2 ht2
        refine ⟨?_, ?_, hc, hd⟩
        · simp [ha]
        · simp [hb]

/-- C9: the bounded circular event queue.  For every valid queue state
(indices in range): the occupied count `(head - tail) mod capacity` never
exceeds `capacity - 1`; a push onto a full queue (`next head = tail`)
fails and leaves head, tail and all stored events unchanged; a pop from an
empty queue (`tail = head`) fails and leaves the queue unchanged; and any
sequence of pushes interleaved with pops delivers exactly the same popped
events, in the same order, as a plain FIFO list model that appends on push
(dropping the event when `capacity - 1` elements are held) and pops from
the front — hence popped events appear in exactly the relative order they
were pushed. -/
theorem event_queue_fifo_spec (q : EventQueue) (e : MidiEvent)
    (hh : q.head < RING_BUFFER_SIZE) (ht : q.tail < RING_BUFFER_SIZE) :
    occ q ≤ RING_BUFFER_SIZE - 1 ∧
    ((q.head + 1) % RING_BUFFER_SIZE = q.tail → queue_push q e = (q, false)) ∧
    (q.tail = q.head → queue_pop q = (q, none)) ∧
    (∀ ops : List QOp, (runOps q ops).2 = (runModel (absQ q) ops).2) := by
  refine ⟨?_, queue_push_full q e, queue_pop_empty q, ?_⟩
  · have h1 : occ q < RING_BUFFER_SIZE :=
      Nat.mod_lt _ (by norm_num [RING_BUFFER_SIZE])
    omega
  · intro ops
    exact (runOps_sim ops q hh ht).1

/-- Witness for `event_queue_fifo_spec`: the empty queue `q0`. -/
theorem event_queue_fifo_spec_witness :
    occ q0 ≤ RING_BUFFER_SIZE - 1 ∧
    ((q0.head + 1) % RING_BUFFER_SIZE = q0.tail → queue_push q0 e0 = (q0, false)) ∧
    (q0.tail = q0.head → queue_pop q0 = (q0, none)) ∧
    (∀ ops : List QOp, (runOps q0 ops).2 = (runModel (absQ q0) ops).2) :=
  event_queue_fifo_spec q0 e0 (by norm_num [q0, RING_BUFFER_SIZE])
    (by norm_num [q0, RING_BUFFER_SIZE])

theorem decode_tick (t : TrackData) :
    (decode_variable_length t).2.tick = t.tick := by
  unfold decode_variable_length
  split <;> simp

theorem decode_active (t : TrackData) :
    (decode_variable_length t).2.dataActive = t.dataActive := by
  unfold decode_variable_length
  split <;> simp

theorem update_command_tick (t : TrackData) :
    (update_command t).tick = t.tick := by
  unfold update_command
  split
  · rfl
  · dsimp only
    split <;> rfl

theorem update_message_tick (t : TrackData) :
    (update_message t).1.tick = t.tick := by
  unfold update_message
  split
  · rfl
  · dsimp only
    split
    · rfl
    · split
      · rfl
      · split
        · rfl
        · split
          · simp [decode_tick]
          · rfl

theorem update_command_active (t : TrackData) :
    (update_command t).dataActive = t.dataActive := by
  unfold update_command
  split
  · rfl
  · dsimp only
    split <;> rfl

theorem update_message_active (t : TrackData) :
    (update_message t).1.dataActive = t.dataActive := by
  unfold update_message
  split
  · rfl
  · dsimp only
    split
    · rfl
    · split
      · rfl
      · split
        · rfl
        · split
          · simp [decode_active]
          · rfl

theorem process_meta_event_tick (t : TrackData) (m : ℚ) (b td : Nat) :
    (process_meta_event t m b td).1.tick = t.tick := by
  unfold process_meta_event
  dsimp only
  split
  · rfl
  · split <;> rfl

theorem update_tick_tick (t : TrackData) :
    t.tick ≤ (update_tick t).tick := by
  unfold update_tick
  dsimp only
  rw [decode_tick]
  omega

theorem update_tick_active (t : TrackData) :
    (update_tick t).dataActive = t.dataActive := by
  unfold update_tick
  dsimp only
  rw [decode_active]

theorem process_meta_event_mult (t : TrackData) (m : ℚ) (b td : Nat) :
    (process_meta_event t m b td).2.1 = m ∨
      1 ≤ (process_meta_event t m b td).2.1 := by
  unfold process_meta_event
  dsimp only
  split
  · right
    dsimp only
    split
    · exact le_refl 1
    · next h => push_neg at h; simpa using h
  · split <;> exact Or.inl rfl

theorem process_meta_event_mult_ge_one (t : TrackData) (m : ℚ) (b td : Nat)
    (hm : (t.message / 256) % 256 = 0x51) :
    1 ≤ (process_meta_event t m b td).2.1 := by
  unfold process_meta_event
  dsimp only
  rw [if_pos hm]
  dsimp only
  split
  · exact le_refl 1
  · next h => push_neg at h; simpa using h

theorem drainStep_ev_tick (td : Nat) (t : TrackData) (mult : ℚ) (bpm : Nat) :
    (drainStep td t mult bpm).2.2.2.1 = t.tick := by
  unfold drainStep
  dsimp only
  rw [update_message_tick, update_command_tick]

theorem drainStep_track_tick (td : Nat) (t : TrackData) (mult : ℚ) (bpm : Nat) :
    t.tick ≤ (drainStep td t mult bpm).1.tick := by
  unfold drainStep
  dsimp only
  have h2 : (update_message (update_command t)).1.tick = t.tick := by
    rw [update_message_tick, update_command_tick]
  set t2 := (update_message (update_command t)).1 with ht2
  have hp : (if t2.message % 256 = 255 then process_meta_event t2 mult bpm td
      else (t2, mult, bpm)).1.tick = t.tick := by
    split
    · rw [process_meta_event_tick]
      exact h2
    · exact h2
  set p := (if t2.message % 256 = 255 then process_meta_event t2 mult bpm td
      else (t2, mult, bpm)) with hpdef
  split
  · exact hp ▸ update_tick_tick p.1
  · exact le_of_eq hp.symm

theorem drainStep_mult (td : Nat) (t : TrackData) (mult : ℚ) (bpm : Nat) :
    (drainStep td t mult bpm).2.1 = mult ∨ 1 ≤ (drainStep td t mult bpm).2.1 := by
  unfold drainStep
  dsimp only
  split
  · exact process_meta_event_mult _ _ _ _
  · exact Or.inl rfl

theorem drainTrack_spec (td : Nat) : ∀ (fuel tick : Nat) (t : TrackData)
    (mult : ℚ) (bpm : Nat) (t5 : TrackData) (m5 : ℚ) (b5 : Nat)
    (evs : List PumpEvent),
    drainTrack td fuel tick t mult bpm = some (t5, m5, b5, evs) →
    (t.dataActive = true → tick ≤ t.tick) →
    (∀ e ∈ evs, e.1 = tick) ∧
    (t5.dataActive = true → tick < t5.tick) ∧
    ((mult = 0 ∨ 1 ≤ mult) → (m5 = 0 ∨ 1 ≤ m5)) := by
  intro fuel
  induction fuel with
  | zero =>
    intro tick t mult bpm t5 m5 b5 evs heq
    simp [drainTrack] at heq
  | succ fuel ih =>
    intro tick t mult bpm t5 m5 b5 evs heq hinv
    rw [drainTrack] at heq
    by_cases hcond : t.dataActive = true ∧ t.tick ≤ tick
    · rw [if_pos hcond] at heq
      dsimp only at heq
      cases hrec : drainTrack td fuel tick (drainStep td t mult bpm).1
          (drainStep td t mult bpm).2.1 (drainStep td t mult bpm).2.2.1 with
      | none =>
        rw [hrec] at heq
        simp at heq
      | some r =>
        obtain ⟨t5r, m5r, b5r, evsr⟩ := r
        rw [hrec] at heq
        dsimp only at heq
        simp only [Option.some.injEq, Prod.mk.injEq] at heq
        obtain ⟨he1, he2, he3, he4⟩ := heq
        subst he1 he2 he3
        have htick_eq : t.tick = tick := le_antisymm hcond.2 (hinv hcond.1)
        have hstep_inv : (drainStep td t mult bpm).1.dataActive = true →
            tick ≤ (drainStep td t mult bpm).1.tick := by
          intro _
          calc tick = t.tick := htick_eq.symm
            _ ≤ _ := drainStep_track_tick td t mult bpm
        obtain ⟨ia, ib, ic⟩ := ih tick _ _ _ _ _ _ evsr hrec hstep_inv
        refine ⟨?_, ib, ?_⟩
        · intro e he
          rw [← he4] at he
          rcases List.mem_cons.mp he with h | h
          · rw [h]
            rw [drainStep_ev_tick]
            exact htick_eq
          · exact ia e h
        · intro hmv
          apply ic
          rcases drainStep_mult td t mult bpm with h | h
          · rw [h]; exact hmv
          · exact Or.inr h
    · rw [if_neg hcond] at heq
      simp only [Option.some.injEq, Prod.mk.injEq] at heq
      obtain ⟨he1, he2, he3, he4⟩ := heq
      subst he1 he2 he3
      refine ⟨?_, ?_, fun h => h⟩
      · intro e he
        rw [← he4] at he
        exact absurd he (List.not_mem_nil e)
      · intro hact
        have h2 := hinv hact
        rcases Nat.lt_or_ge tick t.tick with h | h
        · exact h
        · exfalso
          exact hcond ⟨hact, by omega⟩

theorem drainAll_spec (td fuel tick : Nat) : ∀ (ts : List TrackData)
    (mult : ℚ) (bpm : Nat) (ts2 : List TrackData) (m2 : ℚ) (b2 : Nat)
    (evs : List PumpEvent),
    drainAll td fuel tick ts mult bpm = some (ts2, m2, b2, evs) →
    (∀ t ∈ ts, t.dataActive = true → tick ≤ t.tick) →
    (∀ e ∈ evs, e.1 = tick) ∧
    (∀ t ∈ ts2, t.dataActive = true → tick < t.tick) ∧
    ((mult = 0 ∨ 1 ≤ mult) → (m2 = 0 ∨ 1 ≤ m2))
  | [], mult, bpm, ts2, m2, b2, evs, heq, hinv => by
    simp only [drainAll, Option.some.injEq, Prod.mk.injEq] at heq
    obtain ⟨he1, he2, he3, he4⟩ := heq
    subst he1 he2 he3
    refine ⟨?_, by simp, fun h => h⟩
    intro e he
    rw [← he4] at he
    exact absurd he (List.not_mem_nil e)
  | t :: ts, mult, bpm, ts2, m2, b2, evs, heq, hinv => by
    rw [drainAll] at heq
    cases h1 : drainTrack td fuel tick t mult bpm with
    | none =>
      rw [h1] at heq
      simp at heq
    | some r1 =>
      obtain ⟨ta, ma, ba, evsa⟩ := r1
      rw [h1] at heq
      dsimp only at heq
      cases h2 : drainAll td fuel tick ts ma ba with
      | none =>
        rw [h2] at heq
        simp at heq
      | some r2 =>
        obtain ⟨tsb, mb, bb, evsb⟩ := r2
        rw [h2] at heq
        dsimp only at heq
        simp only [Option.some.injEq, Prod.mk.injEq] at heq
        obtain ⟨he1, he2, he3, he4⟩ := heq
        subst he2 he3
        obtain ⟨ia, ib, ic⟩ := drainTrack_spec td fuel tick t mult bpm ta ma ba
          evsa h1 (hinv t (by simp))
        obtain ⟨ja, jb, jc⟩ := drainAll_spec td fuel tick ts ma ba tsb mb bb
          evsb h2 (fun x hx => hinv x (List.mem_cons_of_mem t hx))
        refine ⟨?_, ?_, fun h => jc (ic h)⟩
        · intro e he
          rw [← he4] at he
          rcases List.mem_append.mp he with h | h
          · exact ia e h
          · exact ja e h
        · intro x hx
          rw [← he1] at hx
          rcases List.mem_cons.mp hx with h | h
          · rw [h]; exact ib
          · exact jb x h

theorem minDelta_foldl_le_acc : ∀ (ts : List TrackData) (tick acc : Nat),
    ts.foldl (fun acc t =>
      if t.dataActive = true then min acc (t.tick - tick) else acc) acc ≤ acc
  | [], _, _ => le_refl _
  | t :: ts, tick, acc => by
    simp only [List.foldl]
    split
    · exact le_trans (minDelta_foldl_le_acc ts tick _) (min_le_left _ _)
    · exact minDelta_foldl_le_acc ts tick acc

theorem minDelta_foldl_le_mem : ∀ (ts : List TrackData) (tick acc : Nat)
    (t : TrackData), t ∈ ts → t.dataActive = true →
    ts.foldl (fun acc t =>
      if t.dataActive = true then min acc (t.tick - tick) else acc) acc ≤
      t.tick - tick
  | [], _, _, t, ht, _ => absurd ht (List.not_mem_nil t)
  | x :: ts, tick, acc, t, ht, hact => by
    simp only [List.foldl]
    rcases List.mem_cons.mp ht with h | h
    · subst h
      rw [if_pos hact]
      exact le_trans (minDelta_foldl_le_acc ts tick _) (min_le_right _ _)
    · split
      · exact minDelta_foldl_le_mem ts tick _ t h hact
      · exact minDelta_foldl_le_mem ts tick acc t h hact

theorem minDelta_le (ts : List TrackData) (tick : Nat) (t : TrackData)
    (ht : t ∈ ts) (hact : t.dataActive = true) :
    minDelta tick ts ≤ t.tick - tick :=
  minDelta_foldl_le_mem ts tick _ t ht hact

theorem pumpRun_spec (td : Nat) : ∀ (fuel tick : Nat)
    (tracks : List TrackData) (mult : ℚ) (bpm : Nat)
    (evs : List PumpEvent) (ms : List ℚ),
    pumpRun td fuel tick tracks mult bpm = some (evs, ms) →
    (∀ t ∈ tracks, t.dataActive = true → tick ≤ t.tick) →
    (∀ e ∈ evs, tick ≤ e.1) ∧
    List.Pairwise (fun a b : PumpEvent => a.1 ≤ b.1) evs ∧
    ((mult = 0 ∨ 1 ≤ mult) → ∀ m ∈ ms, m = 0 ∨ 1 ≤ m) := by
  intro fuel
  induction fuel with
  | zero =>
    intro tick tracks mult bpm evs ms heq
    simp [pumpRun] at heq
  | succ fuel ih =>
    intro tick tracks mult bpm evs ms heq hinv
    rw [pumpRun] at heq
    cases hda : drainAll td (fuel + 1) tick tracks mult bpm with
    | none =>
      rw [hda] at heq
      simp at heq
    | some r =>
      obtain ⟨tracks2, m2, b2, evs1⟩ := r
      rw [hda] at heq
      dsimp only at heq
      obtain ⟨da, db, dc⟩ := drainAll_spec td (fuel + 1) tick tracks mult bpm
        tracks2 m2 b2 evs1 hda hinv
      by_cases hall : tracks2.all (fun t => !t.dataActive)
      · rw [if_pos hall] at heq
        simp only [Option.some.injEq, Prod.mk.injEq] at heq
        obtain ⟨he1, he2⟩ := heq
        subst he1
        refine ⟨fun e he => le_of_eq (da e he).symm, ?_, ?_⟩
        · apply List.pairwise_of_forall_mem_list
          intro a ha b hb
          rw [da a ha, da b hb]
        · intro _ m hm
          rw [← he2] at hm
          exact absurd hm (List.not_mem_nil m)
      · rw [if_neg hall] at heq
        cases hrest : pumpRun td fuel (tick + minDelta tick tracks2) tracks2
            m2 b2 with
        | none =>
          rw [hrest] at heq
          simp at heq
        | some r2 =>
          obtain ⟨evs2, ms2⟩ := r2
          rw [hrest] at heq
          dsimp only at heq
          simp only [Option.some.injEq, Prod.mk.injEq] at heq
          obtain ⟨he1, he2⟩ := heq
          have hinv2 : ∀ t ∈ tracks2, t.dataActive = true →
              tick + minDelta tick tracks2 ≤ t.tick := by
            intro t ht hact
            have h3 := minDelta_le tracks2 tick t ht hact
            have h4 := db t ht hact
            omega
          obtain ⟨pa, pb, pc⟩ := ih (tick + minDelta tick tracks2) tracks2
            m2 b2 evs2 ms2 hrest hinv2
          refine ⟨?_, ?_, ?_⟩
          · intro e he
            rw [← he1] at he
            rcases List.mem_append.mp he with h | h
            · exact le_of_eq (da e h).symm
            · exact le_trans (Nat.le_add_right _ _) (pa e h)
          · rw [← he1]
            rw [List.pairwise_append]
            refine ⟨?_, pb, ?_⟩
            · apply List.pairwise_of_forall_mem_list
              intro a ha b hb
              rw [da a ha, da b hb]
            · intro a ha b hb
              rw [da a ha]
              exact le_trans (Nat.le_add_right _ _) (pa b hb)
          · intro hmv m hm
            rw [← he2] at hm
            rcases List.mem_cons.mp hm with h | h
            · rw [h]
              exact dc hmv
            · exact pc (dc hmv) m h

/-- C3: events are emitted in non-decreasing global-tick order.  (i) For
every terminating pump run from global tick 0, the emitted trace (each
event tagged with the emitting track's tick at dispatch time) is pairwise
non-decreasing in its ticks.  (ii) The two concrete tracks with event
ticks {0, 10, 20} and {0, 5, 15} yield note events in exactly the merged
tick order [0, 0, 5, 10, 15, 20]. -/
theorem pump_emits_monotone :
    (∀ (td fuel : Nat) (tracks : List TrackData) (mult : ℚ) (bpm : Nat)
       (evs : List PumpEvent) (ms : List ℚ),
       pumpRun td fuel 0 tracks mult bpm = some (evs, ms) →
       List.Pairwise (fun a b : PumpEvent => a.1 ≤ b.1) evs) ∧
    (playSession 480 20 [trackA, trackB]).map (fun r => noteTicks r.1) =
      some [0, 0, 5, 10, 15, 20] := by
  constructor
  · intro td fuel tracks mult bpm evs ms heq
    exact (pumpRun_spec td fuel 0 tracks mult bpm evs ms heq
      (fun t _ _ => Nat.zero_le _)).2.1
  · decide

/-- Witness for `pump_emits_monotone`: the merged trace of the two
concrete tracks, obtained from the pump itself, is monotone. -/
theorem pump_emits_monotone_witness :
    List.Pairwise (fun a b : PumpEvent => a.1 ≤ b.1)
      [((0 : Nat), Dispatch.noteOn 100 0 60), (0, Dispatch.noteOn 100 0 61),
       (5, Dispatch.noteOn 100 0 63), (10, Dispatch.noteOn 100 0 62),
       (15, Dispatch.noteOn 100 0 65), (15, Dispatch.meta),
       (20, Dispatch.noteOn 100 0 64), (20, Dispatch.meta)] :=
  pump_emits_monotone.1 480 20 [trackA, trackB] 0 500000 _ [0, 0, 0, 0]
    (by decide)

/-- C6 (refuted): a full playback session of `trackC6` (two note events,
an End-of-Track, and no Set-Tempo anywhere, so the tempo variable holds
its default 500000 throughout) performs its one delay computation with
multiplier 0, and 0 is not ≥ 1: `play_midi` initialises the multiplier to
0 (midiplayer.c:185) and recomputes it only on a Set-Tempo meta event, so
the default tempo never reaches the multiplier. -/
theorem multiplier_zero_before_any_tempo :
    (playSession 480 5 [trackC6]).map (fun r => r.2) = some [0] ∧
    ¬ (1 : ℚ) ≤ 0 := by
  constructor
  · decide
  · norm_num

/-- C6 (amended): every multiplier used in a delay computation of a
session (which starts with multiplier 0) is either the initial 0 — the
value used until the first Set-Tempo meta event is processed — or a
clamped value ≥ 1; and every Set-Tempo recomputation yields a multiplier
≥ 1, never zero or negative. -/
theorem multiplier_clamped_spec :
    (∀ (td fuel : Nat) (tracks : List TrackData) (bpm : Nat)
       (evs : List PumpEvent) (ms : List ℚ),
       pumpRun td fuel 0 tracks 0 bpm = some (evs, ms) →
       ∀ m ∈ ms, m = 0 ∨ 1 ≤ m) ∧
    (∀ (t : TrackData) (mult : ℚ) (bpm td : Nat),
       (t.message / 256) % 256 = 0x51 →
       1 ≤ (process_meta_event t mult bpm td).2.1) := by
  constructor
  · intro td fuel tracks bpm evs ms heq
    exact (pumpRun_spec td fuel 0 tracks 0 bpm evs ms heq
      (fun t _ _ => Nat.zero_le _)).2.2 (Or.inl rfl)
  · intro t mult bpm td hm
    exact process_meta_event_mult_ge_one t mult bpm td hm

/-- Witness for `multiplier_clamped_spec`: the `trackC6` session's
recorded delay-computation multipliers all satisfy the invariant. -/
theorem multiplier_clamped_spec_witness :
    ∀ m ∈ [(0 : ℚ)], m = 0 ∨ 1 ≤ m :=
  multiplier_clamped_spec.1 480 5 [trackC6] 500000
    [(0, Dispatch.noteOn 100 0 60), (10, Dispatch.noteOn 100 0 62),
     (10, Dispatch.meta)] [0] (by decide)

theorem update_command_stuck (o tmp : Nat) (ho : 4 ≤ o) :
    update_command (stuckTrack o tmp) = stuckTrack o tmp := by
  have hb : byteAt (stuckTrack o tmp) o = 0 := by
    unfold byteAt stuckTrack
    dsimp only
    rw [List.getD_eq_default]
    simpa using ho
  unfold update_command
  rw [if_neg (by simp [stuckTrack])]
  dsimp only
  rw [if_neg (by
    rw [show (stuckTrack o tmp).offset = o from rfl, hb]
    omega)]

theorem drainStep_stuck (td o tmp : Nat) (mult : ℚ) (bpm : Nat) (ho : 4 ≤ o) :
    drainStep td (stuckTrack o tmp) mult bpm =
      (stuckTrack (o + 2) 0, mult, bpm,
       (0, classify (stuckTrack o tmp).message)) := by
  have hb1 : byteAt (stuckTrack o tmp) o = 0 := by
    unfold byteAt stuckTrack
    dsimp only
    rw [List.getD_eq_default]
    simpa using ho
  have hb2 : byteAt (stuckTrack o tmp) (o + 1) = 0 := by
    unfold byteAt stuckTrack
    dsimp only
    rw [List.getD_eq_default]
    simp
    omega
  have hmsg := update_message_lt_C0 (stuckTrack o tmp) rfl
    (by simp [stuckTrack])
    (by
      rw [show (stuckTrack o tmp).message =
        0x90 ||| (0x3C * 256 + 0x64 * 65536) from rfl]
      decide)
  rw [show (stuckTrack o tmp).offset = o from rfl] at hmsg
  rw [hb1, hb2] at hmsg
  norm_num [Nat.or_zero] at hmsg
  have hmsg2 : (update_message (stuckTrack o tmp)).1 = stuckTrack (o + 2) 0 := by
    rw [hmsg]
    rfl
  unfold drainStep
  dsimp only
  rw [update_command_stuck o tmp ho, hmsg2]
  rw [if_neg (show ¬ (stuckTrack (o + 2) 0).message % 256 = 255 by
    rw [show (stuckTrack (o + 2) 0).message =
      0x90 ||| (0x3C * 256 + 0x64 * 65536) from rfl]
    decide)]
  dsimp only
  rw [if_pos (show (stuckTrack (o + 2) 0).dataActive = true from rfl)]
  have hut : update_tick (stuckTrack (o + 2) 0) = stuckTrack (o + 2) 0 := by
    unfold update_tick decode_variable_length
    rw [if_pos (show (stuckTrack (o + 2) 0).length ≤
      (stuckTrack (o + 2) 0).offset by simp [stuckTrack]; omega)]
    rfl
  rw [hut]
  rfl

theorem drainTrack_stuck (td : Nat) : ∀ (fuel o tmp : Nat) (mult : ℚ)
    (bpm : Nat), 4 ≤ o →
    drainTrack td fuel 0 (stuckTrack o tmp) mult bpm = none := by
  intro fuel
  induction fuel with
  | zero =>
    intro o tmp mult bpm ho
    rfl
  | succ fuel ih =>
    intro o tmp mult bpm ho
    rw [drainTrack]
    rw [if_pos ⟨rfl, le_refl 0⟩]
    dsimp only
    rw [drainStep_stuck td o tmp mult bpm ho]
    dsimp only
    rw [ih (o + 2) 0 mult bpm (by omega)]

theorem drainTrack_bad (td : Nat) (mult : ℚ) (bpm : Nat) : ∀ fuel : Nat,
    drainTrack td fuel 0 badTrack mult bpm = none
  | 0 => rfl
  | fuel + 1 => by
    rw [drainTrack]
    rw [if_pos ⟨rfl, by decide⟩]
    dsimp only
    have hstep : drainStep td badTrack mult bpm =
        (stuckTrack 4 (0x3C * 256 + 0x64 * 65536), mult, bpm,
         (0, Dispatch.noteOn 100 0 60)) := rfl
    rw [hstep]
    dsimp only
    rw [drainTrack_stuck td fuel 4 (0x3C * 256 + 0x64 * 65536) mult bpm
      (by omega)]

/-- C4 (refuted / code bug): on `badTrack` — a single track holding one
Note-On event and no End-of-Track meta event, so its buffer is exhausted
after that event — the pump never terminates, whatever the fuel: a track
is only deactivated by a 0x2F End-of-Track meta event (which frees its
buffer), never by buffer exhaustion, and with the cursor past the buffer
end the delta-time decoder returns 0 forever, so the inner
`while (tracks[i].data != NULL && tracks[i].tick <= tick)` loop of
`play_midi` re-dispatches the stale latched message without ever making
progress. -/
theorem pump_nontermination_missing_eot :
    ∀ fuel : Nat, pumpRun 480 fuel 0 [badTrack] 0 500000 = none := by
  intro fuel
  cases fuel with
  | zero => rfl
  | succ fuel =>
    rw [pumpRun]
    have hda : drainAll 480 (fuel + 1) 0 [badTrack] 0 500000 = none := by
      rw [drainAll]
      rw [drainTrack_bad 480 0 500000 (fuel + 1)]
    rw [hda]

end MidiPlayer
